import Mathlib

/-!
Verification of the ccwatch monitoring core.

Shallow embedding, in Lean 4, of the core logic of the ccwatch
repository: the notification dedup gate (`shouldSendNotification`), one
check cycle (`checkUsageOnce`), the daemon state persistence
(`FileStateRepository` load/save), the `BinarySemaphore` single-flight
guard, the `CCUsageRepository.fetchUsageData` wrapper and the
`FileProcessManager` process lock.  Each definition is translated from
the TypeScript source; the theorems settle the claims of the
specification about them.
-/

namespace Ccwatch

/-- `DaemonState` from `src/index.ts` / `src/core/interfaces.ts`:
two optional fields, `lastNotificationDate` and `lastExceedanceDate`,
each a `YYYY-MM-DD` string.  An absent field is `none`. -/
structure DaemonState where
  lastNotificationDate : Option String := none
  lastExceedanceDate : Option String := none
deriving DecidableEq, Repr

/-- `MonthlyUsage` from `src/index.ts` (the fields the core logic reads;
`modelBreakdowns` is only ever formatted into messages).  TS `number`
costs are modelled as rationals: the comparisons the code performs
(`>`, `-`) agree with rational arithmetic on the represented values. -/
structure MonthlyUsage where
  month : String
  totalCost : ℚ
  modelsUsed : List String
deriving DecidableEq, Repr

/-- `CCUsageData` from `src/index.ts`: the `monthly` list and
`totals.totalCost`. -/
structure CCUsageData where
  monthly : List MonthlyUsage
  totalsTotalCost : ℚ
deriving DecidableEq, Repr

/-- `Config` from `src/index.ts` (the fields `checkUsageOnce` reads). -/
structure Config where
  threshold : ℚ
  slackWebhookUrl : Option String := none
deriving DecidableEq, Repr

/-- `shouldSendNotification(state, exceeded)` from `src/index.ts` lines
213-232 (identical logic in `CheckUsageCommand.shouldSendNotification`):

```ts
if (!exceeded) return false;
if (state.lastNotificationDate === today) return false;
if (state.lastExceedanceDate !== today) return true;
return state.lastNotificationDate !== today;
```

`today` comes from the clock (`getToday()` / `clock.getToday()`); here it
is passed explicitly.  A TS comparison `undefined === today` is `false`,
which the `Option String` equality models exactly. -/
def shouldSendNotification (state : DaemonState) (exceeded : Bool) (today : String) : Bool :=
  if !exceeded then false
  else if state.lastNotificationDate = some today then false
  else if state.lastExceedanceDate ≠ some today then true
  else state.lastNotificationDate ≠ some today

/-- Modelled from the spec: the NotificationGate of spec section 4.3 as
the ordered decision list rules 1-4 (first matching rule decides), which
is how the numbered rules of the spec and the "Equivalently" clause of
claim C1 read together.  Compared against `shouldSendNotification`
below. -/
def specGateDecide (state : DaemonState) (exceeded : Bool) (today : String) : Bool :=
  if exceeded = false then false
  else if state.lastNotificationDate = some today then false
  else if state.lastExceedanceDate ≠ some today then true
  else if state.lastExceedanceDate = some today ∧ state.lastNotificationDate ≠ some today then true
  else false

/-- The exceedance comparison from `src/index.ts` line 268
(`const exceeded = currentCost > config.threshold`) and
`src/commands/daemon-command.ts` line 228
(`const thresholdExceeded = currentCost > config.threshold`). -/
def thresholdExceeded (threshold cost : ℚ) : Bool := decide (threshold < cost)

/-- Environment of one check cycle: everything `checkUsageOnce` obtains
from the outside world.  `fetch` is the result of `getCCUsageData()`
(`Except.error` models a thrown error), `currentMonth`/`today` come from
the clock, `sendOk` tells whether `sendSlackNotification` resolves
(`false` models a throw). -/
structure CycleEnv where
  fetch : Except String CCUsageData
  currentMonth : String
  today : String
  sendOk : Bool
deriving Repr

/-- Result of one cycle: the state `checkUsageOnce` returns plus whether
a Slack notification was actually sent in this cycle. -/
structure CycleResult where
  newState : DaemonState
  notificationSent : Bool
deriving DecidableEq, Repr

/-- `checkUsageOnce(config, state)` from `src/index.ts` lines 254-304.
The whole body is wrapped in `try/catch`; the catch logs and returns the
*input* `state`.  Inside: fetch, find the entry of the current month
(absent entry returns `state`), `exceeded = currentCost > threshold`; if
exceeded the local copy gets `lastExceedanceDate = today`, and when
`shouldSendNotification(state, exceeded)` holds and a webhook URL is
configured, `sendSlackNotification` is awaited (a throw escapes to the
catch, discarding the local copy) and only after it resolves is
`lastNotificationDate = today` set. -/
def checkUsageOnce (config : Config) (env : CycleEnv) (state : DaemonState) : CycleResult :=
  match env.fetch with
  | Except.error _ => ⟨state, false⟩
  | Except.ok usageData =>
    match usageData.monthly.find? (fun m => m.month = env.currentMonth) with
    | none => ⟨state, false⟩
    | some currentMonthUsage =>
      let exceeded : Bool := thresholdExceeded config.threshold currentMonthUsage.totalCost
      if exceeded then
        let today := env.today
        if shouldSendNotification state exceeded today then
          match config.slackWebhookUrl with
          | some _ =>
            if env.sendOk then
              ⟨{ lastNotificationDate := some today, lastExceedanceDate := some today }, true⟩
            else
              ⟨state, false⟩
          | none => ⟨{ state with lastExceedanceDate := some today }, false⟩
        else
          ⟨{ state with lastExceedanceDate := some today }, false⟩
      else
        ⟨state, false⟩

/-- The daemon loop (`runDaemon` / `DaemonCommand`): threads the state
returned by each cycle into the next one, collecting the sent flags. -/
def runCycles (config : Config) (state : DaemonState) : List CycleEnv → DaemonState × List Bool
  | [] => (state, [])
  | env :: rest =>
    let r := checkUsageOnce config env state
    ((runCycles config r.newState rest).1, r.notificationSent :: (runCycles config r.newState rest).2)

/-- Number of cycles of a run that actually sent a notification. -/
def countSends (config : Config) (state : DaemonState) (envs : List CycleEnv) : Nat :=
  ((runCycles config state envs).2.filter (fun b => b)).length

/-!
The `BinarySemaphore` of `src/infrastructure/semaphore.ts` is a state
machine: the `acquired` flag and the FIFO `waitQueue` of pending
`acquire` promises.  Each `acquire` call is identified by an
allocation-order token; resolving its promise emits a
`granted`/`denied` event.  JS runs `acquire`, `release`, `forceRelease`
and each timer callback synchronously to completion, so every operation
is one atomic step.
-/

/-- State of `BinarySemaphore` plus the ghost list `holders` of callers
that were granted and have not yet released, and the token allocator. -/
structure SemState where
  acquired : Bool
  waitQueue : List Nat
  holders : List Nat
  nextToken : Nat
deriving DecidableEq, Repr

/-- A fresh `BinarySemaphore`: not acquired, empty queue. -/
def SemState.init : SemState := ⟨false, [], [], 0⟩

/-- Resolution of one `acquire` promise: `resolve(true)` /
`resolve(false)`. -/
inductive SemEvent where
  | granted (t : Nat)
  | denied (t : Nat)
deriving DecidableEq, Repr

/-- The call a resolution event belongs to. -/
def SemEvent.token : SemEvent → Nat
  | SemEvent.granted t => t
  | SemEvent.denied t => t

/-- Operations on the semaphore.  `releaseCall t` records which caller
runs `release()`; `timeoutFire t` is the timer callback of the queued
call `t` (timers of granted calls are cleared, so they never fire). -/
inductive SemOp where
  | acquireCall
  | timeoutFire (t : Nat)
  | releaseCall (t : Nat)
  | forceReleaseCall
deriving DecidableEq, Repr

/-- One synchronous step of `BinarySemaphore`:

* `acquire` on a free semaphore sets the flag and returns `true`
  immediately; otherwise the call is appended to the wait queue;
* the timer callback of a still-queued call splices it out of the queue
  and resolves it `false` (a callback of an already-resolved call is a
  no-op because the promise is settled);
* `release` when not acquired only warns; when acquired with an empty
  queue it clears the flag; with a non-empty queue it shifts the head,
  clears its timer, re-sets the flag and resolves the head `true` --
  all inside the same step;
* `forceRelease` clears the flag and resolves every queued call
  `false`. -/
def semStep (s : SemState) : SemOp → SemState × List SemEvent
  | SemOp.acquireCall =>
    if s.acquired = false then
      (⟨true, s.waitQueue, s.holders ++ [s.nextToken], s.nextToken + 1⟩,
        [SemEvent.granted s.nextToken])
    else
      (⟨s.acquired, s.waitQueue ++ [s.nextToken], s.holders, s.nextToken + 1⟩, [])
  | SemOp.timeoutFire t =>
    if t ∈ s.waitQueue then
      (⟨s.acquired, s.waitQueue.erase t, s.holders, s.nextToken⟩, [SemEvent.denied t])
    else (s, [])
  | SemOp.releaseCall t =>
    if s.acquired = false then (s, [])
    else
      match s.waitQueue with
      | [] => (⟨false, [], s.holders.erase t, s.nextToken⟩, [])
      | h :: rest => (⟨true, rest, s.holders.erase t ++ [h], s.nextToken⟩, [SemEvent.granted h])
  | SemOp.forceReleaseCall =>
    (⟨false, [], [], s.nextToken⟩, s.waitQueue.map SemEvent.denied)

/-- Run a sequence of operations, collecting all resolution events. -/
def semRun (s : SemState) : List SemOp → SemState × List SemEvent
  | [] => (s, [])
  | op :: rest =>
    ((semRun (semStep s op).1 rest).1, (semStep s op).2 ++ (semRun (semStep s op).1 rest).2)

/-- Well-formed usage: `release` while held is performed by a current
holder (the only caller in the repository releases in its own
`finally`). -/
def semOpWF (s : SemState) : SemOp → Bool
  | SemOp.releaseCall t => !s.acquired || decide (t ∈ s.holders)
  | _ => true

/-- Well-formedness of a whole run. -/
def semRunWF (s : SemState) : List SemOp → Bool
  | [] => true
  | op :: rest => semOpWF s op && semRunWF (semStep s op).1 rest

/-- How many times the promise of call `t` was resolved. -/
def resolutionCount (evs : List SemEvent) (t : Nat) : Nat :=
  (evs.filter (fun e => e.token = t)).length

/-- State invariant of the semaphore machine. -/
def SemInv (s : SemState) : Prop :=
  s.waitQueue.Nodup ∧
  (∀ t ∈ s.waitQueue, t < s.nextToken) ∧
  s.holders.length ≤ 1 ∧
  (s.acquired = false → s.holders = []) ∧
  (∀ t ∈ s.holders, t < s.nextToken) ∧
  (∀ t ∈ s.waitQueue, t ∉ s.holders)

/-- Relation between the state and the events emitted so far. -/
def SemEvInv (s : SemState) (evs : List SemEvent) : Prop :=
  (∀ t, resolutionCount evs t ≤ 1) ∧
  (∀ t ∈ s.waitQueue, resolutionCount evs t = 0) ∧
  (∀ t, s.nextToken ≤ t → resolutionCount evs t = 0)

/-- `CCUsageRepository.MAX_DATA_SIZE`: `10 * 1024 * 1024` bytes. -/
def MAX_DATA_SIZE : Nat := 10 * 1024 * 1024

/-- `CCUsageRepository.EXECUTION_TIMEOUT`: 30000 ms, the timeout passed
to `executionSemaphore.acquire` in `fetchUsageData`. -/
def EXECUTION_TIMEOUT : Nat := 30000

/-- Result of one `fetchUsageData` call plus whether the `finally`
block released the semaphore. -/
structure FetchOutcome where
  result : Except String CCUsageData
  releasedGuard : Bool
deriving Repr

/-- `CCUsageRepository.fetchUsageData` from
`src/infrastructure/usage-repository.ts` lines 20-74: acquire the
semaphore with `EXECUTION_TIMEOUT`; a failed acquire throws the timeout
error before the `try` (so no release happens -- the call holds
nothing); otherwise run the command (`cmdResult`, `Except.error` models
a throw), enforce the byte cap, parse (`parse` abstracts `JSON.parse`,
`none` models a throw), rewrap any error, and release in `finally` on
every path. -/
def fetchUsageData (parse : String → Option CCUsageData)
    (acquireOk : Bool) (cmdResult : Except String String) : FetchOutcome :=
  if !acquireOk then
    ⟨Except.error "ccusage実行タイムアウト: 他のプロセスが実行中または応答なし", false⟩
  else
    match cmdResult with
    | Except.error msg => ⟨Except.error ("CCUsage data fetch failed: " ++ msg), true⟩
    | Except.ok output =>
      if output.length > MAX_DATA_SIZE then
        ⟨Except.error ("CCUsage data fetch failed: Usage data too large: "
          ++ toString output.length ++ " bytes (max: " ++ toString MAX_DATA_SIZE ++ ")"), true⟩
      else
        match parse output with
        | none => ⟨Except.error "CCUsage data fetch failed: JSON parse error", true⟩
        | some parsedData => ⟨Except.ok parsedData, true⟩

/-- Outcome of reading the state file in `FileStateRepository.load` /
`loadDaemonState`: the file may be absent (`existsSync` false), the
read may throw, or it yields the raw contents. -/
inductive StateFileRead where
  | absent
  | readFailure (msg : String)
  | contents (data : String)

/-- `FileStateRepository.load` (`src/infrastructure/state-repository.ts`
lines 11-28) and `loadDaemonState` (`src/index.ts` lines 178-192):
return the empty state when the file does not exist; otherwise read and
`JSON.parse` inside `try/catch`, returning the empty state from the
catch when either throws.  `parse` abstracts `JSON.parse` (`none`
models a throw). -/
def load (parse : String → Option DaemonState) : StateFileRead → DaemonState
  | StateFileRead.absent => {}
  | StateFileRead.readFailure _ => {}
  | StateFileRead.contents data =>
    match parse data with
    | some state => state
    | none => {}

/-- The three possible outcomes of `process.kill(pid, 0)` (signal 0 is
always a valid signal, so the probe either succeeds or throws `ESRCH` /
`EPERM`). -/
inductive ProbeResult where
  | ok
  | eperm
  | esrch
deriving DecidableEq, Repr

/-- `FileProcessManager.isProcessRunning` (`process-manager` source,
lines 102-113): `process.kill(pid, 0)` succeeding returns `true`; on a
throw the result is `err.code === EPERM`. -/
def isProcessRunning (probe : Nat → ProbeResult) (pid : Nat) : Bool :=
  match probe pid with
  | ProbeResult.ok => true
  | ProbeResult.eperm => true
  | ProbeResult.esrch => false

/-- `FileProcessManager.acquireLock` (`process-manager` source, lines
23-78) over the lock record of one name: `lockFile` is the current
content of the pid file (`none` = absent).  Reading an existing record,
`parseInt(existingPid.trim(), 10)` is abstracted as `parsePid` (`none`
models `NaN`); a live recorded pid fails the acquisition; a stale or
unparsable record is deleted and a fresh record with the current pid is
created; an absent record (ENOENT) goes straight to creation.  Returns
the decision and the new record. -/
def acquireLock (parsePid : String → Option Nat) (probe : Nat → ProbeResult)
    (currentPid : Nat) (lockFile : Option String) : Bool × Option String :=
  match lockFile with
  | none => (true, some (toString currentPid))
  | some contents =>
    match parsePid contents with
    | some pid =>
      if isProcessRunning probe pid then
        (false, some contents)
      else
        (true, some (toString currentPid))
    | none => (true, some (toString currentPid))

/-!
The save path (`FileStateRepository.save` / `saveDaemonState`) is
modelled as the sequence of file-system operations the code issues,
together with a reader-observability semantics: a plain `writeFileSync`
to a path truncates the file and streams the data, so a concurrent
reader can observe every prefix of the new data; a `rename` is atomic
and exposes no intermediate contents.
-/

/-- One file-system operation. -/
inductive FsOp where
  | write (path : String) (data : String)
  | rename (src dst : String)
deriving DecidableEq, Repr

/-- `JSON.stringify(state, null, 2)` on a `DaemonState`: present fields
only, two-space indentation. -/
def serializeState (s : DaemonState) : String :=
  match
    (match s.lastNotificationDate with
     | some d => ["\"lastNotificationDate\": \"" ++ d ++ "\""]
     | none => []) ++
    (match s.lastExceedanceDate with
     | some d => ["\"lastExceedanceDate\": \"" ++ d ++ "\""]
     | none => [])
  with
  | [] => "\x7b\x7d"
  | fields => "\x7b\n  " ++ String.intercalate ",\n  " fields ++ "\n\x7d"

/-- `FileStateRepository.save` (state-repository source, lines 30-41)
and `saveDaemonState` (`src/index.ts` lines 194-202): one direct
`writeFileSync(stateFile, JSON.stringify(state, null, 2))` to the
state-file path itself. -/
def saveOps (stateFile : String) (s : DaemonState) : List FsOp :=
  [FsOp.write stateFile (serializeState s)]

/-- Modelled from the spec: the "write-to-temp-then-rename" pattern the
spec prescribes for the state write; no such code exists under src/. -/
def atomicSaveOps (stateFile : String) (s : DaemonState) : List FsOp :=
  [FsOp.write (stateFile ++ ".tmp") (serializeState s),
   FsOp.rename (stateFile ++ ".tmp") stateFile]

/-- Effect of one completed operation on the file system
(`none` = file absent). -/
def applyOp (fs : String → Option String) : FsOp → String → Option String
  | FsOp.write p d => fun q => if q = p then some d else fs q
  | FsOp.rename src dst => fun q =>
      if q = dst then fs src else if q = src then none else fs q

/-- Effect of a whole sequence of completed operations. -/
def applyOps (fs : String → Option String) : List FsOp → String → Option String
  | [] => fs
  | op :: rest => applyOps (applyOp fs op) rest

/-- Contents of `p` observable while one operation is in progress. -/
def midStates (p : String) : FsOp → List (Option String)
  | FsOp.write q d =>
    if q = p then (List.range (d.length + 1)).map (fun k => some (d.take k)) else []
  | FsOp.rename _ _ => []

/-- Every contents of `p` a concurrent reader can observe before,
during or after the run of `ops`. -/
def observableContents (p : String) (fs : String → Option String) :
    List FsOp → List (Option String)
  | [] => [fs p]
  | op :: rest => fs p :: (midStates p op ++ observableContents p (applyOp fs op) rest)

/-- The run replaces `p` atomically: a reader only ever observes the
old contents or the complete new record. -/
def atomicReplace (p : String) (fs : String → Option String) (ops : List FsOp)
    (newData : String) : Prop :=
  ∀ c ∈ observableContents p fs ops, c = fs p ∨ c = some newData

section CycleEquations

variable (config : Config) (env : CycleEnv) (state : DaemonState)

/-- Branch equation: a thrown fetch is caught and the input state
returned. -/
theorem checkUsageOnce_fetch_error (msg : String) (hf : env.fetch = Except.error msg) :
    checkUsageOnce config env state = ⟨state, false⟩ := by
  simp [checkUsageOnce, hf]

/-- Branch equation: no usage entry for the current month. -/
theorem checkUsageOnce_no_month (u : CCUsageData) (hf : env.fetch = Except.ok u)
    (hm : u.monthly.find? (fun m => m.month = env.currentMonth) = none) :
    checkUsageOnce config env state = ⟨state, false⟩ := by
  simp [checkUsageOnce, hf, hm]

/-- Branch equation: cost does not exceed the threshold. -/
theorem checkUsageOnce_not_exceeded (u : CCUsageData) (cmu : MonthlyUsage)
    (hf : env.fetch = Except.ok u)
    (hm : u.monthly.find? (fun m => m.month = env.currentMonth) = some cmu)
    (he : thresholdExceeded config.threshold cmu.totalCost = false) :
    checkUsageOnce config env state = ⟨state, false⟩ := by
  simp [checkUsageOnce, hf, hm, he]

/-- Branch equation: exceeded, but the gate declines to send. -/
theorem checkUsageOnce_gate_declines (u : CCUsageData) (cmu : MonthlyUsage)
    (hf : env.fetch = Except.ok u)
    (hm : u.monthly.find? (fun m => m.month = env.currentMonth) = some cmu)
    (he : thresholdExceeded config.threshold cmu.totalCost = true)
    (hs : shouldSendNotification state true env.today = false) :
    checkUsageOnce config env state =
      ⟨{ state with lastExceedanceDate := some env.today }, false⟩ := by
  simp [checkUsageOnce, hf, hm, he, hs]

/-- Branch equation: exceeded, gate sends, but no webhook URL is
configured. -/
theorem checkUsageOnce_no_webhook (u : CCUsageData) (cmu : MonthlyUsage)
    (hf : env.fetch = Except.ok u)
    (hm : u.monthly.find? (fun m => m.month = env.currentMonth) = some cmu)
    (he : thresholdExceeded config.threshold cmu.totalCost = true)
    (hs : shouldSendNotification state true env.today = true)
    (hw : config.slackWebhookUrl = none) :
    checkUsageOnce config env state =
      ⟨{ state with lastExceedanceDate := some env.today }, false⟩ := by
  simp [checkUsageOnce, hf, hm, he, hs, hw]

/-- Branch equation: delivery throws; the catch returns the input
state. -/
theorem checkUsageOnce_send_fails (u : CCUsageData) (cmu : MonthlyUsage) (url : String)
    (hf : env.fetch = Except.ok u)
    (hm : u.monthly.find? (fun m => m.month = env.currentMonth) = some cmu)
    (he : thresholdExceeded config.threshold cmu.totalCost = true)
    (hs : shouldSendNotification state true env.today = true)
    (hw : config.slackWebhookUrl = some url)
    (hk : env.sendOk = false) :
    checkUsageOnce config env state = ⟨state, false⟩ := by
  simp [checkUsageOnce, hf, hm, he, hs, hw, hk]

/-- Branch equation: delivery resolves; both dates advance to `today`. -/
theorem checkUsageOnce_send_succeeds (u : CCUsageData) (cmu : MonthlyUsage) (url : String)
    (hf : env.fetch = Except.ok u)
    (hm : u.monthly.find? (fun m => m.month = env.currentMonth) = some cmu)
    (he : thresholdExceeded config.threshold cmu.totalCost = true)
    (hs : shouldSendNotification state true env.today = true)
    (hw : config.slackWebhookUrl = some url)
    (hk : env.sendOk = true) :
    checkUsageOnce config env state =
      ⟨⟨some env.today, some env.today⟩, true⟩ := by
  simp [checkUsageOnce, hf, hm, he, hs, hw, hk]

end CycleEquations

/-- Exhaustive case analysis over the result of a cycle: it is one of
the branch outcomes above. -/
theorem checkUsageOnce_cases (config : Config) (env : CycleEnv) (state : DaemonState) :
    checkUsageOnce config env state = ⟨state, false⟩ ∨
    checkUsageOnce config env state = ⟨{ state with lastExceedanceDate := some env.today }, false⟩ ∨
    (checkUsageOnce config env state = ⟨⟨some env.today, some env.today⟩, true⟩ ∧
      shouldSendNotification state true env.today = true) := by
  cases hf : env.fetch with
  | error msg => exact Or.inl (checkUsageOnce_fetch_error config env state msg hf)
  | ok u =>
    cases hm : u.monthly.find? (fun m => m.month = env.currentMonth) with
    | none => exact Or.inl (checkUsageOnce_no_month config env state u hf hm)
    | some cmu =>
      cases he : thresholdExceeded config.threshold cmu.totalCost with
      | false => exact Or.inl (checkUsageOnce_not_exceeded config env state u cmu hf hm he)
      | true =>
        cases hs : shouldSendNotification state true env.today with
        | false =>
          exact Or.inr (Or.inl (checkUsageOnce_gate_declines config env state u cmu hf hm he hs))
        | true =>
          cases hw : config.slackWebhookUrl with
          | none =>
            exact Or.inr (Or.inl (checkUsageOnce_no_webhook config env state u cmu hf hm he hs hw))
          | some url =>
            cases hk : env.sendOk with
            | false =>
              exact Or.inl (checkUsageOnce_send_fails config env state u cmu url hf hm he hs hw hk)
            | true =>
              exact Or.inr (Or.inr
                ⟨checkUsageOnce_send_succeeds config env state u cmu url hf hm he hs hw hk, rfl⟩)

/-- A cycle that reports `notificationSent = true` has set
`lastNotificationDate` to the `today` of the cycle. -/
theorem sent_sets_lastNotificationDate (config : Config) (env : CycleEnv) (state : DaemonState)
    (h : (checkUsageOnce config env state).notificationSent = true) :
    (checkUsageOnce config env state).newState.lastNotificationDate = some env.today := by
  rcases checkUsageOnce_cases config env state with hc | hc | ⟨hc, _⟩ <;> rw [hc] at h ⊢
  · simp at h
  · simp at h

/-- Once `lastNotificationDate = today`, a cycle on the same day never
sends and preserves `lastNotificationDate = today`. -/
theorem notified_today_no_send (config : Config) (env : CycleEnv) (state : DaemonState)
    (h : state.lastNotificationDate = some env.today) :
    (checkUsageOnce config env state).notificationSent = false ∧
    (checkUsageOnce config env state).newState.lastNotificationDate = some env.today := by
  rcases checkUsageOnce_cases config env state with hc | hc | ⟨hc, hs⟩ <;> rw [hc]
  · exact ⟨rfl, h⟩
  · exact ⟨rfl, h⟩
  · simp [shouldSendNotification, h] at hs

/-- An empty run sends nothing. -/
theorem countSends_nil (config : Config) (state : DaemonState) :
    countSends config state [] = 0 := rfl

/-- Unfolding of `countSends` over the first cycle of a run. -/
theorem countSends_cons (config : Config) (state : DaemonState) (env : CycleEnv)
    (rest : List CycleEnv) :
    countSends config state (env :: rest) =
      (if (checkUsageOnce config env state).notificationSent then 1 else 0) +
        countSends config (checkUsageOnce config env state).newState rest := by
  unfold countSends
  have hr : runCycles config state (env :: rest) =
      ((runCycles config (checkUsageOnce config env state).newState rest).1,
        (checkUsageOnce config env state).notificationSent ::
          (runCycles config (checkUsageOnce config env state).newState rest).2) := rfl
  rw [hr]
  cases h : (checkUsageOnce config env state).notificationSent <;>
    simp [h, List.filter_cons, Nat.add_comm]

/-- After a notification on day `d`, no cycle of the rest of the day
sends. -/
theorem countSends_zero_of_notified (config : Config) (d : String) :
    ∀ (envs : List CycleEnv) (state : DaemonState),
      state.lastNotificationDate = some d → (∀ e ∈ envs, e.today = d) →
      countSends config state envs = 0
  | [], state, _, _ => rfl
  | env :: rest, state, hstate, hd => by
    have htoday : env.today = d := hd env (List.mem_cons_self env rest)
    have h := notified_today_no_send config env state (htoday ▸ hstate)
    rw [countSends_cons, h.1]
    have := countSends_zero_of_notified config d rest
      (checkUsageOnce config env state).newState (htoday ▸ h.2)
      (fun e he => hd e (List.mem_cons_of_mem env he))
    simpa using this

/-- At most one cycle of a same-day run sends a notification. -/
theorem countSends_le_one (config : Config) (d : String) :
    ∀ (envs : List CycleEnv) (state : DaemonState),
      (∀ e ∈ envs, e.today = d) → countSends config state envs ≤ 1
  | [], _, _ => by simp [countSends_nil]
  | env :: rest, state, hd => by
    have htoday : env.today = d := hd env (List.mem_cons_self env rest)
    rw [countSends_cons]
    cases hsent : (checkUsageOnce config env state).notificationSent with
    | false =>
      have := countSends_le_one config d rest (checkUsageOnce config env state).newState
        (fun e he => hd e (List.mem_cons_of_mem env he))
      simpa using this
    | true =>
      have hlast := sent_sets_lastNotificationDate config env state hsent
      have := countSends_zero_of_notified config d rest
        (checkUsageOnce config env state).newState (htoday ▸ hlast)
        (fun e he => hd e (List.mem_cons_of_mem env he))
      simp [this]

/-- C1: `shouldSendNotification` implements the four rules of the
NotificationGate, read in order as the numbered decision list of the
spec: `send=false` when not exceeded; `send=false` when already
notified today; `send=true` on a breach whose last exceedance is from a
different day; `send=true` when the breach continues today and no
notification was sent today.  Equivalently, it sends exactly when
`exceeded` holds and `lastNotificationDate` differs from `today`. -/
theorem shouldSendNotification_implements_gate (s : DaemonState) (e : Bool) (t : String) :
    shouldSendNotification s e t = specGateDecide s e t ∧
    (shouldSendNotification s e t = true ↔ e = true ∧ s.lastNotificationDate ≠ some t) ∧
    (e = false → shouldSendNotification s e t = false) ∧
    (e = true → s.lastNotificationDate = some t → shouldSendNotification s e t = false) ∧
    (e = true → s.lastExceedanceDate ≠ some t → s.lastNotificationDate ≠ some t →
      shouldSendNotification s e t = true) ∧
    (e = true → s.lastExceedanceDate = some t → s.lastNotificationDate ≠ some t →
      shouldSendNotification s e t = true) := by
  unfold shouldSendNotification specGateDecide
  cases e <;> by_cases h1 : s.lastNotificationDate = some t <;>
    by_cases h2 : s.lastExceedanceDate = some t <;> simp [h1, h2]

/-- Witness for C1: the gate declines after a same-day notification and
fires on a continued breach with no notification yet today. -/
theorem shouldSendNotification_implements_gate_witness :
    shouldSendNotification ⟨some "2025-07-15", some "2025-07-15"⟩ true "2025-07-15" = false ∧
    shouldSendNotification ⟨none, some "2025-07-15"⟩ true "2025-07-15" = true :=
  ⟨(shouldSendNotification_implements_gate ⟨some "2025-07-15", some "2025-07-15"⟩
      true "2025-07-15").2.2.2.1 rfl rfl,
   (shouldSendNotification_implements_gate ⟨none, some "2025-07-15"⟩
      true "2025-07-15").2.2.2.2.2 rfl rfl (by decide)⟩

/-- C2: across any same-day sequence of check cycles, at most one cycle
sends a notification; once `lastNotificationDate = today` no cycle of
the day sends; and on a new day the gate re-arms
(`decide` of the 2025-07-15 state with `today = "2025-07-16"` sends). -/
theorem at_most_one_notification_per_day (config : Config) (state : DaemonState)
    (envs : List CycleEnv) (d : String) (hd : ∀ e ∈ envs, e.today = d) :
    countSends config state envs ≤ 1 ∧
    (state.lastNotificationDate = some d → countSends config state envs = 0) ∧
    shouldSendNotification ⟨some "2025-07-15", some "2025-07-15"⟩ true "2025-07-16" = true :=
  ⟨countSends_le_one config d envs state hd,
   fun h => countSends_zero_of_notified config d envs state h hd,
   by decide⟩

/-- Witness for C2: two breaching same-day cycles yield at most one
send. -/
theorem at_most_one_notification_per_day_witness :
    countSends ⟨33, some "https://hooks.example/x"⟩ ⟨none, none⟩
        [⟨Except.ok ⟨[⟨"2025-07", 40, []⟩], 40⟩, "2025-07", "2025-07-15", true⟩,
         ⟨Except.ok ⟨[⟨"2025-07", 40, []⟩], 40⟩, "2025-07", "2025-07-15", true⟩] ≤ 1 :=
  (at_most_one_notification_per_day ⟨33, some "https://hooks.example/x"⟩ ⟨none, none⟩
      [⟨Except.ok ⟨[⟨"2025-07", 40, []⟩], 40⟩, "2025-07", "2025-07-15", true⟩,
       ⟨Except.ok ⟨[⟨"2025-07", 40, []⟩], 40⟩, "2025-07", "2025-07-15", true⟩]
      "2025-07-15" (by decide)).1

/-- C3: a thrown fetch or a thrown delivery is caught at the cycle
boundary and the input state is returned unchanged (no date advanced);
after a failed delivery the gate still yields `send = true` for the
returned state on the same day, so the notification is retried. -/
theorem cycle_errors_leave_state_unchanged (config : Config) (env : CycleEnv)
    (state : DaemonState) :
    (∀ msg, env.fetch = Except.error msg → checkUsageOnce config env state = ⟨state, false⟩) ∧
    (∀ u cmu url, env.fetch = Except.ok u →
      u.monthly.find? (fun m => m.month = env.currentMonth) = some cmu →
      thresholdExceeded config.threshold cmu.totalCost = true →
      shouldSendNotification state true env.today = true →
      config.slackWebhookUrl = some url →
      env.sendOk = false →
      checkUsageOnce config env state = ⟨state, false⟩ ∧
      shouldSendNotification (checkUsageOnce config env state).newState true env.today = true) := by
  constructor
  · intro msg hf
    exact checkUsageOnce_fetch_error config env state msg hf
  · intro u cmu url hf hm he hs hw hk
    have h := checkUsageOnce_send_fails config env state u cmu url hf hm he hs hw hk
    exact ⟨h, by rw [h]; exact hs⟩

/-- Witness for C3: a failing fetch leaves the state untouched. -/
theorem cycle_errors_leave_state_unchanged_witness :
    checkUsageOnce ⟨33, some "https://hooks.example/x"⟩
        ⟨Except.error "boom", "2025-07", "2025-07-15", false⟩ ⟨none, none⟩ =
      ⟨⟨none, none⟩, false⟩ :=
  (cycle_errors_leave_state_unchanged ⟨33, some "https://hooks.example/x"⟩
      ⟨Except.error "boom", "2025-07", "2025-07-15", false⟩ ⟨none, none⟩).1 "boom" rfl

/-- C4: the per-cycle state-update rule: a successful send sets both
dates to `today`; a breach without a successful send (gate declines or
no webhook URL) sets only `lastExceedanceDate`, leaving
`lastNotificationDate` untouched; and no breach leaves the whole state
unchanged, for any input state. -/
theorem cycle_state_update_rule (config : Config) (env : CycleEnv) (state : DaemonState)
    (u : CCUsageData) (cmu : MonthlyUsage)
    (hf : env.fetch = Except.ok u)
    (hm : u.monthly.find? (fun m => m.month = env.currentMonth) = some cmu) :
    (∀ url, thresholdExceeded config.threshold cmu.totalCost = true →
      shouldSendNotification state true env.today = true →
      config.slackWebhookUrl = some url → env.sendOk = true →
      checkUsageOnce config env state = ⟨⟨some env.today, some env.today⟩, true⟩) ∧
    (thresholdExceeded config.threshold cmu.totalCost = true →
      (shouldSendNotification state true env.today = false ∨ config.slackWebhookUrl = none) →
      checkUsageOnce config env state =
        ⟨⟨state.lastNotificationDate, some env.today⟩, false⟩) ∧
    (thresholdExceeded config.threshold cmu.totalCost = false →
      checkUsageOnce config env state = ⟨state, false⟩) := by
  refine ⟨?_, ?_, ?_⟩
  · intro url he hs hw hk
    exact checkUsageOnce_send_succeeds config env state u cmu url hf hm he hs hw hk
  · intro he hcase
    rcases hcase with hs | hw
    · exact checkUsageOnce_gate_declines config env state u cmu hf hm he hs
    · cases hs : shouldSendNotification state true env.today with
      | false => exact checkUsageOnce_gate_declines config env state u cmu hf hm he hs
      | true => exact checkUsageOnce_no_webhook config env state u cmu hf hm he hs hw
  · intro he
    exact checkUsageOnce_not_exceeded config env state u cmu hf hm he

/-- Witness for C4: a breach with a successful delivery stamps both
dates with today. -/
theorem cycle_state_update_rule_witness :
    checkUsageOnce ⟨33, some "https://hooks.example/x"⟩
        ⟨Except.ok ⟨[⟨"2025-07", 40, ["opus"]⟩], 40⟩, "2025-07", "2025-07-15", true⟩
        ⟨none, none⟩ =
      ⟨⟨some "2025-07-15", some "2025-07-15"⟩, true⟩ :=
  (cycle_state_update_rule ⟨33, some "https://hooks.example/x"⟩
      ⟨Except.ok ⟨[⟨"2025-07", 40, ["opus"]⟩], 40⟩, "2025-07", "2025-07-15", true⟩
      ⟨none, none⟩ ⟨[⟨"2025-07", 40, ["opus"]⟩], 40⟩ ⟨"2025-07", 40, ["opus"]⟩
      rfl (by decide)).1 "https://hooks.example/x" (by decide) (by decide) rfl rfl

/-- C10: exceedance is a strict comparison: `exceeded` holds exactly
when `cost > threshold`; a cost exactly equal to the threshold is not
an exceedance, so the cycle neither notifies nor touches
`lastExceedanceDate`. -/
theorem thresholdExceeded_strict (threshold cost : ℚ) (config : Config) (env : CycleEnv)
    (state : DaemonState) (u : CCUsageData) (cmu : MonthlyUsage)
    (hf : env.fetch = Except.ok u)
    (hm : u.monthly.find? (fun m => m.month = env.currentMonth) = some cmu)
    (hc : cmu.totalCost = config.threshold) :
    (thresholdExceeded threshold cost = true ↔ threshold < cost) ∧
    checkUsageOnce config env state = ⟨state, false⟩ := by
  refine ⟨by simp [thresholdExceeded], ?_⟩
  apply checkUsageOnce_not_exceeded config env state u cmu hf hm
  simp [thresholdExceeded, hc]

/-- Witness for C10: cost exactly at the threshold leaves the state and
the notification flag untouched. -/
theorem thresholdExceeded_strict_witness :
    ((thresholdExceeded 33 40 = true ↔ (33 : ℚ) < 40) ∧
      checkUsageOnce ⟨33, some "https://hooks.example/x"⟩
          ⟨Except.ok ⟨[⟨"2025-07", 33, []⟩], 33⟩, "2025-07", "2025-07-15", true⟩
          ⟨none, none⟩ =
        ⟨⟨none, none⟩, false⟩) :=
  thresholdExceeded_strict 33 40 ⟨33, some "https://hooks.example/x"⟩
    ⟨Except.ok ⟨[⟨"2025-07", 33, []⟩], 33⟩, "2025-07", "2025-07-15", true⟩
    ⟨none, none⟩ ⟨[⟨"2025-07", 33, []⟩], 33⟩ ⟨"2025-07", 33, []⟩
    rfl (by decide) rfl

/-- Step equation: `acquire` on a free semaphore grants immediately. -/
theorem semStep_acquire_free (s : SemState) (ha : s.acquired = false) :
    semStep s SemOp.acquireCall =
      (⟨true, s.waitQueue, s.holders ++ [s.nextToken], s.nextToken + 1⟩,
        [SemEvent.granted s.nextToken]) := by
  simp [semStep, ha]

/-- Step equation: `acquire` on a held semaphore enqueues the caller. -/
theorem semStep_acquire_held (s : SemState) (ha : s.acquired = true) :
    semStep s SemOp.acquireCall =
      (⟨true, s.waitQueue ++ [s.nextToken], s.holders, s.nextToken + 1⟩, []) := by
  simp [semStep, ha]

/-- Step equation: the timer of a queued call splices it out and denies
it. -/
theorem semStep_timeout_mem (s : SemState) (t : Nat) (ht : t ∈ s.waitQueue) :
    semStep s (SemOp.timeoutFire t) =
      (⟨s.acquired, s.waitQueue.erase t, s.holders, s.nextToken⟩, [SemEvent.denied t]) := by
  simp [semStep, ht]

/-- Step equation: the timer of a call no longer queued is a no-op. -/
theorem semStep_timeout_not_mem (s : SemState) (t : Nat) (ht : t ∉ s.waitQueue) :
    semStep s (SemOp.timeoutFire t) = (s, []) := by
  simp [semStep, ht]

/-- Step equation: `release` while not acquired only warns. -/
theorem semStep_release_not_held (s : SemState) (t : Nat) (ha : s.acquired = false) :
    semStep s (SemOp.releaseCall t) = (s, []) := by
  simp [semStep, ha]

/-- Step equation: `release` with an empty queue frees the semaphore. -/
theorem semStep_release_empty (s : SemState) (t : Nat) (ha : s.acquired = true)
    (hw : s.waitQueue = []) :
    semStep s (SemOp.releaseCall t) =
      (⟨false, [], s.holders.erase t, s.nextToken⟩, []) := by
  simp [semStep, ha, hw]

/-- Step equation: `release` with a non-empty queue hands the semaphore
to the FIFO head inside the same step. -/
theorem semStep_release_transfer (s : SemState) (t h : Nat) (rest : List Nat)
    (ha : s.acquired = true) (hw : s.waitQueue = h :: rest) :
    semStep s (SemOp.releaseCall t) =
      (⟨true, rest, s.holders.erase t ++ [h], s.nextToken⟩, [SemEvent.granted h]) := by
  simp [semStep, ha, hw]

/-- Step equation: `forceRelease` clears the flag and denies the whole
queue. -/
theorem semStep_force (s : SemState) :
    semStep s SemOp.forceReleaseCall =
      (⟨false, [], [], s.nextToken⟩, s.waitQueue.map SemEvent.denied) := rfl

/-- Resolution counts add over concatenated event lists. -/
theorem resolutionCount_append (a b : List SemEvent) (t : Nat) :
    resolutionCount (a ++ b) t = resolutionCount a t + resolutionCount b t := by
  simp [resolutionCount, List.filter_append]

/-- A list of length at most one containing `t` is `[t]`. -/
theorem eq_singleton_of_length_le_one {l : List Nat} {t : Nat}
    (hlen : l.length ≤ 1) (hmem : t ∈ l) : l = [t] := by
  cases l with
  | nil => cases hmem
  | cons a rest =>
    cases rest with
    | nil => simp at hmem; simp [hmem]
    | cons b rest2 => simp at hlen

/-- Resolution count over a single event. -/
theorem resolutionCount_singleton (e : SemEvent) (t : Nat) :
    resolutionCount [e] t = if e.token = t then 1 else 0 := by
  by_cases h : e.token = t <;> simp [resolutionCount, List.filter, h]

/-- Denying a whole queue resolves each token once per occurrence. -/
theorem resolutionCount_map_denied (q : List Nat) (t : Nat) :
    resolutionCount (q.map SemEvent.denied) t = q.count t := by
  induction q with
  | nil => rfl
  | cons a r ih =>
    have hsplit : resolutionCount (SemEvent.denied a :: r.map SemEvent.denied) t
        = resolutionCount [SemEvent.denied a] t + resolutionCount (r.map SemEvent.denied) t := by
      simpa using resolutionCount_append [SemEvent.denied a] (r.map SemEvent.denied) t
    simp only [List.map_cons, hsplit, ih, resolutionCount_singleton, SemEvent.token]
    by_cases h : a = t <;> simp [h, List.count_cons, Nat.add_comm]

/-- One well-formed step preserves the state invariant and the event
invariant. -/
theorem semStep_preserves (s : SemState) (evs : List SemEvent) (op : SemOp)
    (hinv : SemInv s) (hev : SemEvInv s evs) (hwf : semOpWF s op = true) :
    SemInv (semStep s op).1 ∧ SemEvInv (semStep s op).1 (evs ++ (semStep s op).2) := by
  obtain ⟨hnd, hqlt, hhlen, hfree, hhlt, hdisj⟩ := hinv
  obtain ⟨hc1, hc2, hc3⟩ := hev
  cases op with
  | acquireCall =>
    cases ha : s.acquired with
    | false =>
      rw [semStep_acquire_free s ha]
      dsimp only [SemInv, SemEvInv]
      refine ⟨⟨hnd, ?_, ?_, ?_, ?_, ?_⟩, ?_, ?_, ?_⟩
      · exact fun t ht => Nat.lt_succ_of_lt (hqlt t ht)
      · simp [hfree ha]
      · intro hcontr; simp at hcontr
      · intro t ht
        rcases List.mem_append.mp ht with h | h
        · exact Nat.lt_succ_of_lt (hhlt t h)
        · simp at h; simp [h]
      · intro t ht
        intro hmem
        rcases List.mem_append.mp hmem with h | h
        · exact hdisj t ht h
        · simp at h
          exact absurd (h ▸ hqlt t ht) (Nat.lt_irrefl _)
      · intro t
        rw [resolutionCount_append, resolutionCount_singleton]
        by_cases h : s.nextToken = t
        · have : resolutionCount evs t = 0 := hc3 t (Nat.le_of_eq h)
          simp [SemEvent.token, h, this]
        · simp [SemEvent.token, h]
          exact hc1 t
      · intro t ht
        rw [resolutionCount_append, resolutionCount_singleton]
        have hne : s.nextToken ≠ t := by
          intro hcontr
          exact absurd (hcontr ▸ hqlt t ht) (Nat.lt_irrefl _)
        simp [SemEvent.token, hne, hc2 t ht]
      · intro t htok
        rw [resolutionCount_append, resolutionCount_singleton]
        have hne : s.nextToken ≠ t := by omega
        simp [SemEvent.token, hne]
        exact hc3 t (by omega)
    | true =>
      rw [semStep_acquire_held s ha]
      dsimp only [SemInv, SemEvInv]
      refine ⟨⟨?_, ?_, hhlen, ?_, fun t ht => Nat.lt_succ_of_lt (hhlt t ht), ?_⟩, ?_, ?_, ?_⟩
      · refine List.Nodup.append hnd (List.nodup_singleton _) ?_
        intro t ht hmem
        simp at hmem
        exact absurd (hmem ▸ hqlt t ht) (Nat.lt_irrefl _)
      · intro t ht
        rcases List.mem_append.mp ht with h | h
        · exact Nat.lt_succ_of_lt (hqlt t h)
        · simp at h; simp [h]
      · intro hcontr; simp at hcontr
      · intro t ht
        rcases List.mem_append.mp ht with h | h
        · exact hdisj t h
        · simp at h
          intro hmem
          exact absurd (h ▸ hhlt t hmem) (Nat.lt_irrefl _)
      · intro t; simpa using hc1 t
      · intro t ht
        rcases List.mem_append.mp ht with h | h
        · simpa using hc2 t h
        · simp at h
          simpa using hc3 t (Nat.le_of_eq h.symm)
      · intro t htok; simpa using hc3 t (by omega)
  | timeoutFire t =>
    by_cases hq : t ∈ s.waitQueue
    · rw [semStep_timeout_mem s t hq]
      dsimp only [SemInv, SemEvInv]
      refine ⟨⟨List.Nodup.erase t hnd, ?_, hhlen, hfree, hhlt, ?_⟩, ?_, ?_, ?_⟩
      · exact fun u hu => hqlt u (List.mem_of_mem_erase hu)
      · exact fun u hu => hdisj u (List.mem_of_mem_erase hu)
      · intro u
        rw [resolutionCount_append, resolutionCount_singleton]
        by_cases h : t = u
        · simp [SemEvent.token, h, hc2 u (h ▸ hq)]
        · simp [SemEvent.token, h]
          exact hc1 u
      · intro u hu
        have hne : u ≠ t := ((List.Nodup.mem_erase_iff hnd).mp hu).1
        have hne2 : t ≠ u := fun hcontr => hne hcontr.symm
        rw [resolutionCount_append, resolutionCount_singleton]
        simpa [SemEvent.token, hne2] using hc2 u (List.mem_of_mem_erase hu)
      · intro u hu
        have hne : t ≠ u := by
          have hlt := hqlt t hq
          omega
        rw [resolutionCount_append, resolutionCount_singleton]
        simp [SemEvent.token, hne]
        exact hc3 u hu
    · rw [semStep_timeout_not_mem s t hq]
      dsimp only [SemInv, SemEvInv]
      exact ⟨⟨hnd, hqlt, hhlen, hfree, hhlt, hdisj⟩, by simpa using hc1,
        by simpa using hc2, by simpa using hc3⟩
  | releaseCall t =>
    cases ha : s.acquired with
    | false =>
      rw [semStep_release_not_held s t ha]
      dsimp only [SemInv, SemEvInv]
      exact ⟨⟨hnd, hqlt, hhlen, hfree, hhlt, hdisj⟩, by simpa using hc1,
        by simpa using hc2, by simpa using hc3⟩
    | true =>
      have hth : t ∈ s.holders := by
        simp [semOpWF, ha] at hwf
        exact hwf
      have hhold : s.holders = [t] := eq_singleton_of_length_le_one hhlen hth
      cases hwq : s.waitQueue with
      | nil =>
        rw [semStep_release_empty s t ha hwq]
        dsimp only [SemInv, SemEvInv]
        refine ⟨⟨List.nodup_nil, ?_, ?_, ?_, ?_, ?_⟩, ?_, ?_, ?_⟩
        · intro u hu; cases hu
        · simp [hhold]
        · intro _; simp [hhold]
        · intro u hu; simp [hhold] at hu
        · intro u hu; cases hu
        · intro u; simpa using hc1 u
        · intro u hu; cases hu
        · intro u hu; simpa using hc3 u hu
      | cons h rest =>
        rw [semStep_release_transfer s t h rest ha hwq]
        dsimp only [SemInv, SemEvInv]
        have hhq : h ∈ s.waitQueue := by simp [hwq]
        have hndr : (h :: rest).Nodup := hwq ▸ hnd
        refine ⟨⟨?_, ?_, ?_, ?_, ?_, ?_⟩, ?_, ?_, ?_⟩
        · exact (List.nodup_cons.mp hndr).2
        · intro u hu
          exact hqlt u (by simp [hwq, hu])
        · simp [hhold]
        · intro hcontr; simp at hcontr
        · intro u hu
          simp [hhold] at hu
          simp [hu]
          exact hqlt h hhq
        · intro u hu
          simp [hhold]
          intro hcontr
          rw [hcontr] at hu
          exact (List.nodup_cons.mp hndr).1 hu
        · intro u
          rw [resolutionCount_append, resolutionCount_singleton]
          by_cases heq : h = u
          · simp [SemEvent.token, heq, hc2 u (heq ▸ hhq)]
          · simp [SemEvent.token, heq]
            exact hc1 u
        · intro u hu
          rw [resolutionCount_append, resolutionCount_singleton]
          have hne : h ≠ u := by
            intro hcontr
            rw [hcontr] at hndr
            exact (List.nodup_cons.mp hndr).1 hu
          simp [SemEvent.token, hne]
          exact hc2 u (by simp [hwq, hu])
        · intro u hu
          rw [resolutionCount_append, resolutionCount_singleton]
          have hne : h ≠ u := by
            intro hcontr
            exact absurd (hcontr ▸ hqlt h hhq) (by omega)
          simp [SemEvent.token, hne]
          exact hc3 u hu
  | forceReleaseCall =>
    rw [semStep_force s]
    dsimp only [SemInv, SemEvInv]
    refine ⟨⟨List.nodup_nil, ?_, ?_, ?_, ?_, ?_⟩, ?_, ?_, ?_⟩
    · intro u hu; cases hu
    · simp
    · intro _; rfl
    · intro u hu; cases hu
    · intro u hu; cases hu
    · intro u
      rw [resolutionCount_append, resolutionCount_map_denied]
      by_cases hq : u ∈ s.waitQueue
      · have : s.waitQueue.count u = 1 := List.count_eq_one_of_mem hnd hq
        simp [hc2 u hq, this]
      · simp [List.count_eq_zero_of_not_mem hq]
        exact hc1 u
    · intro u hu; cases hu
    · intro u hu
      rw [resolutionCount_append, resolutionCount_map_denied]
      have : u ∉ s.waitQueue := by
        intro hmem
        exact absurd (hqlt u hmem) (by omega)
      simp [List.count_eq_zero_of_not_mem this]
      exact hc3 u hu

/-- Both invariants hold after any well-formed run. -/
theorem semRun_preserves : ∀ (ops : List SemOp) (s : SemState) (evs : List SemEvent),
    SemInv s → SemEvInv s evs → semRunWF s ops = true →
    SemInv (semRun s ops).1 ∧ SemEvInv (semRun s ops).1 (evs ++ (semRun s ops).2)
  | [], s, evs, hinv, hev, _ => by
    simpa [semRun] using ⟨hinv, hev⟩
  | op :: rest, s, evs, hinv, hev, hwf => by
    have hwfs : semOpWF s op = true ∧ semRunWF (semStep s op).1 rest = true := by
      simpa [semRunWF] using hwf
    have hstep := semStep_preserves s evs op hinv hev hwfs.1
    have hrec := semRun_preserves rest (semStep s op).1 (evs ++ (semStep s op).2)
      hstep.1 hstep.2 hwfs.2
    refine ⟨?_, ?_⟩
    · simpa [semRun] using hrec.1
    · simpa [semRun, List.append_assoc] using hrec.2

/-- The fresh semaphore satisfies the state invariant. -/
theorem SemInv_init : SemInv SemState.init := by
  refine ⟨List.nodup_nil, ?_, ?_, ?_, ?_, ?_⟩ <;> simp [SemState.init]

/-- The fresh semaphore with no events satisfies the event invariant. -/
theorem SemEvInv_init : SemEvInv SemState.init [] := by
  refine ⟨?_, ?_, ?_⟩ <;> simp [SemState.init, resolutionCount]

/-- Two members of a list of length at most one coincide. -/
theorem mem_eq_of_length_le_one {α : Type} {l : List α} {a b : α}
    (h : l.length ≤ 1) (ha : a ∈ l) (hb : b ∈ l) : a = b := by
  cases l with
  | nil => cases ha
  | cons x rest =>
    cases rest with
    | nil =>
      simp at ha hb
      rw [ha, hb]
    | cons y r2 => simp at h

/-- A call resolved twice would give its token a resolution count of
two. -/
theorem not_denied_and_granted (evs : List SemEvent) (t : Nat)
    (hcount : resolutionCount evs t ≤ 1)
    (hd : SemEvent.denied t ∈ evs) (hg : SemEvent.granted t ∈ evs) : False := by
  have hdf : SemEvent.denied t ∈ evs.filter (fun e => e.token = t) :=
    List.mem_filter.mpr ⟨hd, by simp [SemEvent.token]⟩
  have hgf : SemEvent.granted t ∈ evs.filter (fun e => e.token = t) :=
    List.mem_filter.mpr ⟨hg, by simp [SemEvent.token]⟩
  have := mem_eq_of_length_le_one hcount hdf hgf
  simp at this

/-- C6: under any well-formed sequence of acquire/timeout/release/
forceRelease operations, the `BinarySemaphore` never has more than one
holder; no `acquire` call is ever resolved twice, so a call that timed
out (resolved `false`) is never granted afterward; `acquire` on a free
guard grants immediately with `true`; `release` with a non-empty wait
queue transfers ownership to the FIFO head within the same atomic step
(the post-state is still `acquired`, so the guard is never observable
as free in between); and a timed-out waiter is spliced out of the
queue and resolved `false`. -/
theorem binarySemaphore_invariants (ops : List SemOp)
    (hwf : semRunWF SemState.init ops = true) :
    (semRun SemState.init ops).1.holders.length ≤ 1 ∧
    (∀ t, resolutionCount (semRun SemState.init ops).2 t ≤ 1) ∧
    (∀ t, ¬(SemEvent.denied t ∈ (semRun SemState.init ops).2 ∧
            SemEvent.granted t ∈ (semRun SemState.init ops).2)) ∧
    (∀ s : SemState, s.acquired = false →
      semStep s SemOp.acquireCall =
        (⟨true, s.waitQueue, s.holders ++ [s.nextToken], s.nextToken + 1⟩,
          [SemEvent.granted s.nextToken])) ∧
    (∀ (s : SemState) (t h : Nat) (rest : List Nat), s.acquired = true →
      s.waitQueue = h :: rest →
      semStep s (SemOp.releaseCall t) =
        (⟨true, rest, s.holders.erase t ++ [h], s.nextToken⟩, [SemEvent.granted h])) ∧
    (∀ (s : SemState) (t : Nat), t ∈ s.waitQueue →
      semStep s (SemOp.timeoutFire t) =
        (⟨s.acquired, s.waitQueue.erase t, s.holders, s.nextToken⟩, [SemEvent.denied t])) := by
  have hrun := semRun_preserves ops SemState.init [] SemInv_init SemEvInv_init hwf
  have hcount : ∀ t, resolutionCount (semRun SemState.init ops).2 t ≤ 1 := by
    intro t
    simpa using hrun.2.1 t
  refine ⟨hrun.1.2.2.1, hcount, ?_, ?_, ?_, ?_⟩
  · intro t hboth
    exact not_denied_and_granted _ t (hcount t) hboth.1 hboth.2
  · intro s ha
    exact semStep_acquire_free s ha
  · intro s t h rest ha hw
    exact semStep_release_transfer s t h rest ha hw
  · intro s t ht
    exact semStep_timeout_mem s t ht

/-- Witness for C6: a concrete well-formed run -- immediate grant, two
queued calls, one timeout, two releases (one FIFO transfer), then a
force release -- keeps at most one holder. -/
theorem binarySemaphore_invariants_witness :
    (semRun SemState.init
      [SemOp.acquireCall, SemOp.acquireCall, SemOp.acquireCall, SemOp.timeoutFire 2,
       SemOp.releaseCall 0, SemOp.releaseCall 1, SemOp.forceReleaseCall]).1.holders.length ≤ 1 :=
  (binarySemaphore_invariants
    [SemOp.acquireCall, SemOp.acquireCall, SemOp.acquireCall, SemOp.timeoutFire 2,
     SemOp.releaseCall 0, SemOp.releaseCall 1, SemOp.forceReleaseCall] (by decide)).1

/-- C7: `fetchUsageData` acquires the guard with the bounded default
timeout of 30 s; a failed acquisition raises the guard-timeout error at
once (the timeout path of the semaphore has already spliced the caller
out of the wait queue -- third conjunct); and whenever acquisition
succeeded, the guard is released on every exit path, whatever the
command result and however parsing goes. -/
theorem fetchUsageData_guard_discipline (parse : String → Option CCUsageData)
    (cmdResult : Except String String) :
    EXECUTION_TIMEOUT = 30000 ∧
    (fetchUsageData parse false cmdResult =
      ⟨Except.error "ccusage実行タイムアウト: 他のプロセスが実行中または応答なし", false⟩) ∧
    (∀ (s : SemState) (t : Nat), s.waitQueue.Nodup → t ∈ s.waitQueue →
      t ∉ (semStep s (SemOp.timeoutFire t)).1.waitQueue) ∧
    (fetchUsageData parse true cmdResult).releasedGuard = true := by
  refine ⟨rfl, rfl, ?_, ?_⟩
  · intro s t hnd ht
    rw [semStep_timeout_mem s t ht]
    exact List.Nodup.not_mem_erase hnd
  · unfold fetchUsageData
    cases cmdResult with
    | error msg => rfl
    | ok output =>
      by_cases hlen : output.length > MAX_DATA_SIZE
      · simp [hlen]
      · cases hp : parse output <;> simp [hlen, hp]

/-- Witness for C7: a fetch whose output fails to parse still releases
the guard. -/
theorem fetchUsageData_guard_discipline_witness :
    (fetchUsageData (fun _ => none) true (Except.ok "garbage")).releasedGuard = true :=
  (fetchUsageData_guard_discipline (fun _ => none) (Except.ok "garbage")).2.2.2

/-- C9: a missing, unreadable or unparsable state record loads as the
empty state and never raises, so daemon startup treats a corrupted
record exactly like an absent one; a well-formed record loads as its
parsed contents. -/
theorem load_corrupt_record_as_empty (parse : String → Option DaemonState) :
    load parse StateFileRead.absent = {} ∧
    (∀ msg, load parse (StateFileRead.readFailure msg) = {}) ∧
    (∀ data, parse data = none → load parse (StateFileRead.contents data) = {}) ∧
    (∀ data state, parse data = some state →
      load parse (StateFileRead.contents data) = state) := by
  refine ⟨rfl, fun msg => rfl, ?_, ?_⟩
  · intro data hp
    simp [load, hp]
  · intro data state hp
    simp [load, hp]

/-- Witness for C9: malformed JSON loads as the empty state. -/
theorem load_corrupt_record_as_empty_witness :
    load (fun _ => none) (StateFileRead.contents "not json at all") = {} :=
  (load_corrupt_record_as_empty (fun _ => none)).2.2.1 "not json at all" rfl

/-- C8: `acquireLock` fails (and leaves the record alone) exactly when
the recorded process is alive; a stale record is replaced by a fresh
record holding the current pid with result `true`; and
`isProcessRunning` treats a permission-denied probe (`EPERM`) as
running, returning `false` only when the process does not exist
(`ESRCH`). -/
theorem acquireLock_respects_liveness (parsePid : String → Option Nat)
    (probe : Nat → ProbeResult) (currentPid : Nat) :
    (∀ contents pid, parsePid contents = some pid →
      isProcessRunning probe pid = true →
      acquireLock parsePid probe currentPid (some contents) = (false, some contents)) ∧
    (∀ contents pid, parsePid contents = some pid →
      isProcessRunning probe pid = false →
      acquireLock parsePid probe currentPid (some contents) =
        (true, some (toString currentPid))) ∧
    (acquireLock parsePid probe currentPid none = (true, some (toString currentPid))) ∧
    (∀ pid, probe pid = ProbeResult.eperm → isProcessRunning probe pid = true) ∧
    (∀ pid, isProcessRunning probe pid = false ↔ probe pid = ProbeResult.esrch) := by
  refine ⟨?_, ?_, rfl, ?_, ?_⟩
  · intro contents pid hp hrun
    simp [acquireLock, hp, hrun]
  · intro contents pid hp hrun
    simp [acquireLock, hp, hrun]
  · intro pid hp
    simp [isProcessRunning, hp]
  · intro pid
    unfold isProcessRunning
    cases hp : probe pid <;> simp

/-- Witness for C8: a record of a live pid blocks acquisition; a record
of a dead pid is replaced; `EPERM` counts as running. -/
theorem acquireLock_respects_liveness_witness :
    acquireLock (fun s => if s = "100" then some 100 else some 150)
        (fun pid => if pid = 100 then ProbeResult.ok else ProbeResult.esrch) 200
        (some "100") = (false, some "100") ∧
    acquireLock (fun s => if s = "100" then some 100 else some 150)
        (fun pid => if pid = 100 then ProbeResult.ok else ProbeResult.esrch) 200
        (some "150") = (true, some "200") ∧
    isProcessRunning (fun _ => ProbeResult.eperm) 7 = true :=
  ⟨(acquireLock_respects_liveness (fun s => if s = "100" then some 100 else some 150)
        (fun pid => if pid = 100 then ProbeResult.ok else ProbeResult.esrch) 200).1
      "100" 100 (by decide) (by decide),
   (acquireLock_respects_liveness (fun s => if s = "100" then some 100 else some 150)
        (fun pid => if pid = 100 then ProbeResult.ok else ProbeResult.esrch) 200).2.1
      "150" 150 (by decide) (by decide),
   (acquireLock_respects_liveness (fun s => some 0) (fun _ => ProbeResult.eperm) 7).2.2.2.1
      7 rfl⟩

/-- Counterexample to C5: saving the state with both dates 2025-07-15
over an existing empty record with the single direct write of the code
lets a reader observe the one-character partial record, which is
neither the old nor the new contents -- the write is not atomic. -/
theorem save_not_atomic_counterexample :
    ¬ atomicReplace "/home/user/.ccwatch-state.json"
        (fun q => if q = "/home/user/.ccwatch-state.json" then some "\x7b\x7d" else none)
        (saveOps "/home/user/.ccwatch-state.json" ⟨some "2025-07-15", some "2025-07-15"⟩)
        (serializeState ⟨some "2025-07-15", some "2025-07-15"⟩) := by
  intro h
  have hmem : some "\x7b" ∈ observableContents "/home/user/.ccwatch-state.json"
      (fun q => if q = "/home/user/.ccwatch-state.json" then some "\x7b\x7d" else none)
      (saveOps "/home/user/.ccwatch-state.json" ⟨some "2025-07-15", some "2025-07-15"⟩) := by
    decide
  rcases h _ hmem with hc | hc
  · exact absurd hc (by decide)
  · exact absurd hc (by decide)

/-- C5 amended: every persisted write replaces the record wholesale --
one direct write of the whole serialized state to the state-file path,
never a rename -- and after it completes a reader sees exactly the new
record; but the write is not performed as write-to-temp-then-rename,
so mid-write partial records are observable (see the counterexample).
The temp-then-rename pattern of the spec (`atomicSaveOps`) would be
atomic in this semantics. -/
theorem save_writes_wholesale (stateFile : String) (s : DaemonState)
    (fs : String → Option String) :
    saveOps stateFile s = [FsOp.write stateFile (serializeState s)] ∧
    (∀ op ∈ saveOps stateFile s, ∀ src dst, op ≠ FsOp.rename src dst) ∧
    applyOps fs (saveOps stateFile s) stateFile = some (serializeState s) ∧
    atomicReplace stateFile fs (atomicSaveOps stateFile s) (serializeState s) := by
  have hne : stateFile ++ ".tmp" ≠ stateFile := by
    intro hcontr
    have hlen := congrArg String.length hcontr
    have h4 : String.length ".tmp" = 4 := rfl
    rw [String.length_append, h4] at hlen
    omega
  have hne2 : stateFile ≠ stateFile ++ ".tmp" := fun hcontr => hne hcontr.symm
  refine ⟨rfl, ?_, ?_, ?_⟩
  · intro op hop src dst
    simp [saveOps] at hop
    simp [hop]
  · simp [applyOps, applyOp, saveOps]
  · intro c hc
    simp [atomicSaveOps, observableContents, midStates, applyOp, hne, hne2] at hc
    exact hc.elim Or.inl Or.inr

/-- Witness for the amended C5: saving the empty state over an empty
file system leaves exactly the serialized empty record. -/
theorem save_writes_wholesale_witness :
    applyOps (fun _ => none) (saveOps "/tmp/s.json" ⟨none, none⟩) "/tmp/s.json" =
      some (serializeState ⟨none, none⟩) :=
  (save_writes_wholesale "/tmp/s.json" ⟨none, none⟩ (fun _ => none)).2.2.1

end Ccwatch

